import Mathlib

/-!
# Verification of the `trellis` iterative-calculation driver

A shallow embedding of the core of the `trellis` crate: the generic state
wrapper (`src/state/mod.rs`), the runner loop (`src/runner/mod.rs`), the
observer dispatch (`src/watchers/mod.rs`) and the caller-facing result
envelope (`src/result.rs`), together with theorems settling the spec's
claims about them.

Machine floats (`f32`/`f64` through the `FloatCore` bound) are modelled by
an inductive type `TFloat` with a finite layer of rationals plus the two
infinities and NaN; the wrapper only uses `<`, `is_infinite` and
`is_sign_positive`, all of which are exactly represented (the sign of a
finite zero cannot be distinguished here, but the source only inspects the
sign of values it has already checked to be infinite).
-/

namespace Trellis

/-- Model of an IEEE float as used by the state wrapper: a finite value
(represented exactly by a rational), one of the two infinities, or NaN. -/
inductive TFloat where
  | finite (q : ℚ)
  | posInf
  | negInf
  | nan
deriving DecidableEq

namespace TFloat

/-- IEEE `<` on the model: NaN is incomparable with everything,
`-∞ < finite < +∞`, and finite values compare as rationals. -/
def lt : TFloat → TFloat → Bool
  | finite a, finite b => a < b
  | finite _, posInf => true
  | negInf, finite _ => true
  | negInf, posInf => true
  | _, _ => false

/-- `FloatCore::is_infinite`. -/
def isInfinite : TFloat → Bool
  | posInf => true
  | negInf => true
  | _ => false

/-- `FloatCore::is_sign_positive`.  On finite values the source's sign bit of
a negative zero is not representable here, but the wrapper only reads the
sign of values already known to be infinite. NaN's sign bit is arbitrary. -/
def isSignPositive : TFloat → Bool
  | posInf => true
  | negInf => false
  | nan => true
  | finite q => decide (0 ≤ q)

/-- `f64::EPSILON` (2⁻⁵² = 1/4503599627370496), the default
`relative_tolerance` installed by `State::new` for `S::Float = f64`. -/
def f64Epsilon : TFloat := finite (mkRat 1 4503599627370496)

end TFloat

/-- `Cause` (`src/state/status.rs`): the closed set of termination causes.
The sibling copy in `src/state.rs` names the second variant `Controller`;
the runner's `From<Caller> for Cause` maps the auxiliary-thread kill to that
same variant, called `Parent` here as in `status.rs` and the spec. -/
inductive Cause where
  | ControlC
  | Parent
  | Converged
  | ExceededMaxIterations
deriving DecidableEq

/-- `Status` (`src/state/status.rs`). -/
inductive Status where
  | NotTerminated
  | Terminated (c : Cause)
deriving DecidableEq

/-- The `UserState` trait (`src/state/mod.rs`): the operations of the
user-defined state the wrapper and runner call.  `new` and `get_param` play
no part in the claims and are omitted; `update` returns the mutated state
together with the fresh `ErrorEstimate` it produced. -/
structure UserState (σ : Type) where
  is_initialised : σ → Bool
  update : σ → σ × TFloat
  last_was_best : σ → σ

/-- `usize::MAX`, the default `max_iter` installed by `State::new`. -/
def usizeMax : ℕ := 2 ^ 64 - 1

/-- The state wrapper `State<S>` (`src/state/mod.rs`).  The source keeps
`specific` in an `Option` purely so it can be moved out and back within a
call (`take`/`set`); at every function boundary it is `Some`, so it is
modelled as a plain field.  The wall-clock `time` field is not modelled. -/
structure State (σ : Type) where
  specific : σ
  iter : ℕ
  last_best_iter : ℕ
  max_iter : ℕ
  termination_status : Status
  error : TFloat
  prev_error : TFloat
  best_error : TFloat
  prev_best_error : TFloat
  relative_tolerance : TFloat

namespace State

variable {σ : Type}

/-- `State::new`, with the fresh user state and the float type's machine
epsilon supplied as arguments (the source obtains them from `S::new()` and
`FloatCore::epsilon()`). -/
def new (init : σ) (eps : TFloat) : State σ where
  specific := init
  iter := 0
  last_best_iter := 0
  max_iter := usizeMax
  termination_status := .NotTerminated
  error := .posInf
  prev_error := .posInf
  best_error := .posInf
  prev_best_error := .posInf
  relative_tolerance := eps

/-- `State::increment_iteration`. -/
def increment_iteration (s : State σ) : State σ := { s with iter := s.iter + 1 }

/-- `State::current_iteration`. -/
def current_iteration (s : State σ) : ℕ := s.iter

/-- `State::is_terminated`. -/
def is_terminated (s : State σ) : Bool := s.termination_status ≠ Status.NotTerminated

/-- `State::terminate_due_to`. -/
def terminate_due_to (s : State σ) (reason : Cause) : State σ :=
  { s with termination_status := .Terminated reason }

/-- `State::termination_cause`. -/
def termination_cause (s : State σ) : Option Cause :=
  match s.termination_status with
  | .NotTerminated => none
  | .Terminated cause => some cause

/-- `State::update` (`src/state/mod.rs`, lines 141–167), with the user
state's trait implementation passed explicitly.  The body is a direct
transcription: record the fresh estimate into `error`; if it is a new best
(strictly smaller than `best_error`, or both infinite with matching sign)
shift `best_error` into `prev_best_error` (the source's
`mem::swap` followed by an assignment), record the estimate and the
iteration, and invoke `last_was_best` on the user state; finally run the
convergence check and then the max-iteration check.  Note the source never
writes `prev_error`. -/
def update (u : UserState σ) (s : State σ) : State σ :=
  let sp := (u.update s.specific).1
  let s1 : State σ := { s with error := (u.update s.specific).2 }
  let s2 : State σ :=
    if s1.error.lt s1.best_error ||
        (s1.error.isInfinite && s1.best_error.isInfinite &&
          (s1.error.isSignPositive == s1.best_error.isSignPositive)) then
      { s1 with prev_best_error := s1.best_error
                best_error := s1.error
                last_best_iter := s1.iter
                specific := u.last_was_best sp }
    else
      { s1 with specific := sp }
  if s2.error.lt s2.relative_tolerance then
    s2.terminate_due_to .Converged
  else if s2.current_iteration > s2.max_iter then
    s2.terminate_due_to .ExceededMaxIterations
  else
    s2

/-- `State::is_initialised` (delegates to the user state). -/
def is_initialised (u : UserState σ) (s : State σ) : Bool :=
  u.is_initialised s.specific

end State

/-- The best-iteration condition of `State::update` line 145–149, as a
proposition on the fresh estimate `e` and the previous `best_error`. -/
def IsBestEstimate (e best : TFloat) : Prop :=
  e.lt best = true ∨
    (e.isInfinite = true ∧ best.isInfinite = true ∧ e.isSignPositive = best.isSignPositive)

instance (e best : TFloat) : Decidable (IsBestEstimate e best) := by
  unfold IsBestEstimate; infer_instance

end Trellis

namespace Trellis

variable {σ : Type}

def bestCond (e best : TFloat) : Bool :=
  e.lt best || (e.isInfinite && best.isInfinite && (e.isSignPositive == best.isSignPositive))

theorem bestCond_iff (e best : TFloat) : bestCond e best = true ↔ IsBestEstimate e best := by
  simp [bestCond, IsBestEstimate, Bool.or_eq_true, Bool.and_eq_true, beq_iff_eq, and_assoc]

theorem infinite_same_sign_eq (a b : TFloat) (ha : a.isInfinite = true)
    (hb : b.isInfinite = true) (hs : a.isSignPositive = b.isSignPositive) : a = b := by
  cases a <;> cases b <;> simp_all [TFloat.isInfinite, TFloat.isSignPositive]

theorem update_error (u : UserState σ) (s : State σ) :
    (State.update u s).error = (u.update s.specific).2 := by
  rcases hu : u.update s.specific with ⟨sp, e⟩
  simp only [State.update, hu, State.terminate_due_to, State.current_iteration]
  split <;> split <;> first | rfl | (split <;> rfl)

theorem update_prev_error (u : UserState σ) (s : State σ) :
    (State.update u s).prev_error = s.prev_error := by
  rcases hu : u.update s.specific with ⟨sp, e⟩
  simp only [State.update, hu, State.terminate_due_to, State.current_iteration]
  split <;> split <;> first | rfl | (split <;> rfl)

theorem update_iter (u : UserState σ) (s : State σ) :
    (State.update u s).iter = s.iter := by
  rcases hu : u.update s.specific with ⟨sp, e⟩
  simp only [State.update, hu, State.terminate_due_to, State.current_iteration]
  split <;> split <;> first | rfl | (split <;> rfl)

theorem update_max_iter (u : UserState σ) (s : State σ) :
    (State.update u s).max_iter = s.max_iter := by
  rcases hu : u.update s.specific with ⟨sp, e⟩
  simp only [State.update, hu, State.terminate_due_to, State.current_iteration]
  split <;> split <;> first | rfl | (split <;> rfl)

theorem update_relative_tolerance (u : UserState σ) (s : State σ) :
    (State.update u s).relative_tolerance = s.relative_tolerance := by
  rcases hu : u.update s.specific with ⟨sp, e⟩
  simp only [State.update, hu, State.terminate_due_to, State.current_iteration]
  split <;> split <;> first | rfl | (split <;> rfl)

theorem update_best_error (u : UserState σ) (s : State σ) :
    (State.update u s).best_error =
      if bestCond (u.update s.specific).2 s.best_error then (u.update s.specific).2
      else s.best_error := by
  rcases hu : u.update s.specific with ⟨sp, e⟩
  simp only [State.update, hu, State.terminate_due_to, State.current_iteration, bestCond]
  split <;> simp_all <;> split <;> first | rfl | (split <;> rfl)

theorem update_prev_best_error (u : UserState σ) (s : State σ) :
    (State.update u s).prev_best_error =
      if bestCond (u.update s.specific).2 s.best_error then s.best_error
      else s.prev_best_error := by
  rcases hu : u.update s.specific with ⟨sp, e⟩
  simp only [State.update, hu, State.terminate_due_to, State.current_iteration, bestCond]
  split <;> simp_all <;> split <;> first | rfl | (split <;> rfl)

theorem update_last_best_iter (u : UserState σ) (s : State σ) :
    (State.update u s).last_best_iter =
      if bestCond (u.update s.specific).2 s.best_error then s.iter
      else s.last_best_iter := by
  rcases hu : u.update s.specific with ⟨sp, e⟩
  simp only [State.update, hu, State.terminate_due_to, State.current_iteration, bestCond]
  split <;> simp_all <;> split <;> first | rfl | (split <;> rfl)

theorem update_specific (u : UserState σ) (s : State σ) :
    (State.update u s).specific =
      if bestCond (u.update s.specific).2 s.best_error then
        u.last_was_best (u.update s.specific).1
      else (u.update s.specific).1 := by
  rcases hu : u.update s.specific with ⟨sp, e⟩
  simp only [State.update, hu, State.terminate_due_to, State.current_iteration, bestCond]
  split <;> simp_all <;> split <;> first | rfl | (split <;> rfl)

theorem update_status (u : UserState σ) (s : State σ) :
    (State.update u s).termination_status =
      if (u.update s.specific).2.lt s.relative_tolerance then Status.Terminated Cause.Converged
      else if s.iter > s.max_iter then Status.Terminated Cause.ExceededMaxIterations
      else s.termination_status := by
  rcases hu : u.update s.specific with ⟨sp, e⟩
  simp only [State.update, hu, State.terminate_due_to, State.current_iteration]
  split <;> split <;> simp_all <;> split <;> simp_all

end Trellis

namespace Trellis

variable {σ : Type}

/-- C1: in `State::update`, after the best-tracking step, an estimate below
`relative_tolerance` terminates with `Converged`; otherwise an iteration
count above `max_iter` terminates with `ExceededMaxIterations`; otherwise
`termination_status` is left unchanged.  The convergence check takes
priority over the max-iteration check, for every state and estimate. -/
theorem update_termination_priority (u : UserState σ) (s : State σ) :
    (State.update u s).termination_status =
      if (u.update s.specific).2.lt s.relative_tolerance then Status.Terminated Cause.Converged
      else if s.iter > s.max_iter then Status.Terminated Cause.ExceededMaxIterations
      else s.termination_status :=
  update_status u s

/-- C2: `State::update` marks the iteration as best exactly when the fresh
estimate is below `best_error` or both are infinities of the same sign;
when and only when best it shifts `best_error` into `prev_best_error`,
records the estimate and the iteration, and invokes `last_was_best`; and
the very first update after construction with a `+∞` estimate is a best
event that fires `last_was_best`. -/
theorem update_best_tracking (u : UserState σ) (s : State σ) :
    (IsBestEstimate (u.update s.specific).2 s.best_error →
        (State.update u s).prev_best_error = s.best_error
      ∧ (State.update u s).best_error = (u.update s.specific).2
      ∧ (State.update u s).last_best_iter = s.iter
      ∧ (State.update u s).specific = u.last_was_best (u.update s.specific).1)
  ∧ (¬ IsBestEstimate (u.update s.specific).2 s.best_error →
        (State.update u s).prev_best_error = s.prev_best_error
      ∧ (State.update u s).best_error = s.best_error
      ∧ (State.update u s).last_best_iter = s.last_best_iter
      ∧ (State.update u s).specific = (u.update s.specific).1)
  ∧ (∀ (init : σ) (eps : TFloat), (u.update init).2 = TFloat.posInf →
        IsBestEstimate (u.update init).2 (State.new init eps).best_error
      ∧ (State.update u (State.new init eps)).specific
          = u.last_was_best (u.update init).1) := by
  refine ⟨fun h => ?_, fun h => ?_, fun init eps h => ?_⟩
  · have hb : bestCond (u.update s.specific).2 s.best_error = true := (bestCond_iff _ _).2 h
    rw [update_prev_best_error, update_best_error, update_last_best_iter, update_specific]
    rw [if_pos hb, if_pos hb, if_pos hb, if_pos hb]
    exact ⟨rfl, rfl, rfl, rfl⟩
  · have hb : bestCond (u.update s.specific).2 s.best_error = false := by
      rcases Bool.eq_false_or_eq_true (bestCond (u.update s.specific).2 s.best_error) with ht | hf
      · exact absurd ((bestCond_iff _ _).1 ht) h
      · exact hf
    rw [update_prev_best_error, update_best_error, update_last_best_iter, update_specific]
    rw [if_neg (by simp [hb]), if_neg (by simp [hb]), if_neg (by simp [hb]),
      if_neg (by simp [hb])]
    exact ⟨rfl, rfl, rfl, rfl⟩
  · have hbest : IsBestEstimate (u.update init).2 (State.new init eps).best_error := by
      right
      refine ⟨?_, ?_, ?_⟩ <;> simp [h, State.new, TFloat.isInfinite, TFloat.isSignPositive]
    refine ⟨hbest, ?_⟩
    have hb : bestCond (u.update (State.new init eps).specific).2
        (State.new init eps).best_error = true := (bestCond_iff _ _).2 hbest
    rw [update_specific, if_pos hb]
    rfl

/-- C6: `best_error` is non-increasing across updates, in the extended-reals
sense: after any `State::update` it equals its previous value or is strictly
below it in the IEEE order. -/
theorem best_error_nonincreasing (u : UserState σ) (s : State σ) :
    (State.update u s).best_error = s.best_error ∨
      ((State.update u s).best_error).lt s.best_error = true := by
  rw [update_best_error]
  rcases Bool.eq_false_or_eq_true (bestCond (u.update s.specific).2 s.best_error) with ht | hf
  · rw [if_pos ht]
    unfold bestCond at ht
    simp only [Bool.or_eq_true] at ht
    rcases ht with hlt | hinf
    · exact Or.inr hlt
    · simp only [Bool.and_eq_true, beq_iff_eq] at hinf
      exact Or.inl (infinite_same_sign_eq _ _ hinf.1.1 hinf.1.2 hinf.2)
  · rw [if_neg (by simp [hf])]
    exact Or.inl rfl

end Trellis

namespace Trellis

variable {σ : Type}

/-- User state taking estimates 1 at the first update and 1/2 afterwards,
used to exhibit the behaviour of `prev_error` over two updates. -/
def stepUser : UserState ℕ where
  is_initialised := fun _ => true
  update := fun n => (n + 1, if n = 0 then TFloat.finite 1 else TFloat.finite (mkRat 1 2))
  last_was_best := fun n => n

/-- C5: `State::update` never writes `prev_error` — the field keeps its
value from construction, contradicting the claim that after a call it holds
the value `error` had immediately before.  Concretely, after two updates
from a fresh f64 state with estimates 1 then 1/2, `prev_error` is still
`+∞` while `error` before the second call was 1. -/
theorem prev_error_never_written :
    (∀ (τ : Type) (u : UserState τ) (s : State τ),
        (State.update u s).prev_error = s.prev_error)
  ∧ (State.update stepUser (State.new 0 TFloat.f64Epsilon)).error = TFloat.finite 1
  ∧ (State.update stepUser
        (State.update stepUser (State.new 0 TFloat.f64Epsilon))).prev_error = TFloat.posInf
  ∧ TFloat.posInf ≠ TFloat.finite 1 := by
  refine ⟨fun τ u s => update_prev_error u s, by decide, by decide, by decide⟩

/-- Already-terminated state (cause `ExceededMaxIterations`) with
`relative_tolerance` 1, used against claim C9. -/
def terminatedState : State Unit where
  specific := ()
  iter := 0
  last_best_iter := 0
  max_iter := 5
  termination_status := Status.Terminated Cause.ExceededMaxIterations
  error := TFloat.finite 3
  prev_error := TFloat.posInf
  best_error := TFloat.finite 3
  prev_best_error := TFloat.posInf
  relative_tolerance := TFloat.finite 1

/-- User state whose estimate 0 lies below `terminatedState`'s tolerance. -/
def convergingUser : UserState Unit where
  is_initialised := fun _ => true
  update := fun _ => ((), TFloat.finite 0)
  last_was_best := fun x => x

/-- User state whose estimate 2 lies above `terminatedState`'s tolerance. -/
def stagnantUser : UserState Unit where
  is_initialised := fun _ => true
  update := fun _ => ((), TFloat.finite 2)
  last_was_best := fun x => x

/-- C9 counterexample: `State::update` re-runs its termination checks on an
already-terminated state, so a state terminated with
`ExceededMaxIterations` whose next estimate falls below the tolerance gets
its cause overwritten to `Converged`. -/
theorem update_overwrites_termination_cause :
    terminatedState.termination_status = Status.Terminated Cause.ExceededMaxIterations
  ∧ (State.update convergingUser terminatedState).termination_status
      = Status.Terminated Cause.Converged
  ∧ Status.Terminated Cause.Converged
      ≠ Status.Terminated Cause.ExceededMaxIterations := by
  refine ⟨rfl, by decide, by decide⟩

/-- C9 as amended: an existing termination cause survives a further
`State::update` provided neither termination check fires in that call —
the fresh estimate is not below the tolerance and the iteration count does
not exceed `max_iter`. -/
theorem update_preserves_cause_without_new_trigger (u : UserState σ) (s : State σ)
    (c : Cause) (hc : s.termination_status = Status.Terminated c)
    (hconv : (u.update s.specific).2.lt s.relative_tolerance = false)
    (hiter : ¬ s.iter > s.max_iter) :
    (State.update u s).termination_status = Status.Terminated c := by
  rw [update_status, if_neg (by simp [hconv]), if_neg hiter, hc]

/-- Witness for the amended C9: a terminated state whose next estimate (2)
is above the tolerance (1) keeps its cause. -/
theorem update_preserves_cause_witness :
    (State.update stagnantUser terminatedState).termination_status
      = Status.Terminated Cause.ExceededMaxIterations :=
  update_preserves_cause_without_new_trigger stagnantUser terminatedState
    Cause.ExceededMaxIterations rfl (by decide) (by decide)

/-- C10: when the user state's update returns NaN, `State::update` records
NaN into `error`, does not mark the iteration as best (best-tracking fields
untouched, `last_was_best` not invoked), and cannot terminate with
`Converged` in that call; only the max-iteration check can terminate it. -/
theorem update_nan_estimate (u : UserState σ) (s : State σ)
    (h : (u.update s.specific).2 = TFloat.nan) :
    (State.update u s).error = TFloat.nan
  ∧ (State.update u s).best_error = s.best_error
  ∧ (State.update u s).prev_best_error = s.prev_best_error
  ∧ (State.update u s).last_best_iter = s.last_best_iter
  ∧ (State.update u s).specific = (u.update s.specific).1
  ∧ (State.update u s).termination_status =
      (if s.iter > s.max_iter then Status.Terminated Cause.ExceededMaxIterations
       else s.termination_status) := by
  have hb : bestCond (u.update s.specific).2 s.best_error = false := by
    rw [h]
    cases s.best_error <;> rfl
  refine ⟨?_, ?_, ?_, ?_, ?_, ?_⟩
  · rw [update_error, h]
  · rw [update_best_error, if_neg (by simp [hb])]
  · rw [update_prev_best_error, if_neg (by simp [hb])]
  · rw [update_last_best_iter, if_neg (by simp [hb])]
  · rw [update_specific, if_neg (by simp [hb])]
  · rw [update_status, h, if_neg (by simp [TFloat.lt])]

/-- User state that always reports a NaN estimate. -/
def nanUser : UserState Unit where
  is_initialised := fun _ => true
  update := fun _ => ((), TFloat.nan)
  last_was_best := fun x => x

/-- Witness for C10 at a fresh state receiving a NaN estimate. -/
theorem update_nan_estimate_witness :
    (State.update nanUser (State.new () TFloat.f64Epsilon)).error = TFloat.nan
  ∧ (State.update nanUser (State.new () TFloat.f64Epsilon)).best_error = TFloat.posInf
  ∧ (State.update nanUser (State.new () TFloat.f64Epsilon)).termination_status
      = Status.NotTerminated := by
  have h := update_nan_estimate nanUser (State.new () TFloat.f64Epsilon) rfl
  exact ⟨h.1, h.2.1, by rw [h.2.2.2.2.2]; rfl⟩

end Trellis

namespace Trellis

/-- `Frequency` (`src/watchers/mod.rs`).  The spec's `OnExit` is the
source's `Last` variant. -/
inductive Frequency where
  | Never
  | Always
  | Every (n : ℕ)
  | Last
deriving DecidableEq

/-- `Stage` (`src/watchers/mod.rs`).  The spec's `WrapUp` is the source's
`Finalisation` variant. -/
inductive Stage where
  | Initialisation
  | Finalisation
  | Iteration
deriving DecidableEq

/-- The dispatch of `impl Observable for ObserverVec` (`src/watchers/mod.rs`
lines 125–139): the vector holds `(Weak<dyn Observer>, Frequency)` pairs;
`update` iterates them in attachment order, upgrades each weak handle
(modelled by the `Bool`), and calls `observe` on every one that is alive.
The result lists the attachment indices whose `observe` runs.  The attached
`Frequency` is carried in the pairs but the body never reads it, and the
subject's stage and iteration play no part. -/
def observerVecFired : List (Bool × Frequency) → List ℕ
  | [] => []
  | (alive, _) :: rest =>
      if alive then 0 :: (observerVecFired rest).map (· + 1)
      else (observerVecFired rest).map (· + 1)

/-- Modelled from the spec (§4.5): whether frequency `f` permits a firing
at `stage` when the state's iteration count is `iter` (`Last` standing for
the spec's `OnExit`, `Finalisation` for its `WrapUp`). -/
def specPermits (f : Frequency) (stage : Stage) (iter : ℕ) : Bool :=
  match stage with
  | .Iteration =>
      match f with
      | .Always => true
      | .Every n => iter % n == 0
      | .Last => false
      | .Never => false
  | .Initialisation =>
      match f with
      | .Always => true
      | .Every _ => true
      | .Last => false
      | .Never => false
  | .Finalisation =>
      match f with
      | .Always => true
      | .Every _ => false
      | .Last => true
      | .Never => false

end Trellis

namespace Trellis

theorem observerVecFired_mem (obs : List (Bool × Frequency)) (i : ℕ) :
    i ∈ observerVecFired obs ↔ ∃ h : i < obs.length, (obs.get ⟨i, h⟩).1 = true := by
  induction obs generalizing i with
  | nil => simp [observerVecFired]
  | cons hd tl ih =>
    rcases hd with ⟨alive, f⟩
    cases alive
    · simp only [observerVecFired, Bool.false_eq_true, if_false, List.mem_map]
      cases i with
      | zero => simp
      | succ i =>
        simp only [List.length_cons, Nat.succ_lt_succ_iff, List.get_cons_succ]
        constructor
        · rintro ⟨j, hj, hji⟩
          have hj2 : j = i := by omega
          rw [hj2] at hj
          exact (ih i).1 hj
        · intro h
          exact ⟨i, (ih i).2 h, rfl⟩
    · simp only [observerVecFired, if_true]
      cases i with
      | zero => simp
      | succ i =>
        rw [List.mem_cons]
        simp only [List.mem_map, List.length_cons, Nat.succ_lt_succ_iff, List.get_cons_succ]
        constructor
        · rintro (h | ⟨j, hj, hji⟩)
          · exact absurd h (by omega)
          · have hj2 : j = i := by omega
            rw [hj2] at hj
            exact (ih i).1 hj
        · intro h
          exact Or.inr ⟨i, (ih i).2 h, rfl⟩

theorem observerVecFired_sorted (obs : List (Bool × Frequency)) :
    List.Sorted (· < ·) (observerVecFired obs) := by
  induction obs with
  | nil => simp [observerVecFired]
  | cons hd tl ih =>
    rcases hd with ⟨alive, f⟩
    have hmap : List.Sorted (· < ·) ((observerVecFired tl).map (· + 1)) :=
      List.Pairwise.map _ (fun a b h => by omega) ih
    cases alive
    · simpa [observerVecFired] using hmap
    · simp only [observerVecFired, if_true, List.sorted_cons]
      refine ⟨fun x hx => ?_, hmap⟩
      rcases List.mem_map.1 hx with ⟨j, _, rfl⟩
      omega

/-- C4 counterexample: one live observer attached with `Frequency::Never`
still has its `observe` invoked at an `Iteration` event with iteration
count 1, though §4.5's gating forbids it. -/
theorem observer_dispatch_not_gated :
    observerVecFired [(true, Frequency.Never)] = [0]
  ∧ specPermits Frequency.Never Stage.Iteration 1 = false :=
  ⟨rfl, rfl⟩

/-- C4 as amended: `ObserverVec`'s dispatch invokes `observe` on every
attached observer whose weak handle is still alive, in attachment order,
regardless of its attached `Frequency` and of the event's stage — the
frequency is recorded at attachment but never consulted. -/
theorem observer_dispatch_fires_all_alive (obs : List (Bool × Frequency)) :
    (∀ i : ℕ, i ∈ observerVecFired obs ↔
        ∃ h : i < obs.length, (obs.get ⟨i, h⟩).1 = true)
  ∧ List.Sorted (· < ·) (observerVecFired obs) :=
  ⟨observerVecFired_mem obs, observerVecFired_sorted obs⟩

end Trellis

namespace Trellis

/-- The `Calculation` trait (`src/calculation.rs`): three fallible phases
over the problem and the user state.  The `&mut self` calculation and the
`&mut Problem<P>` it receives are threaded together as one environment
value of type `η`; `finalise` produces the user-defined output `ο`. -/
structure Calculation (η σ ε ο : Type) where
  initialise : η → σ → Except ε (η × σ)
  next : η → σ → Except ε (η × σ)
  finalise : η → σ → Except ε (η × ο)

/-- `Caller` (`src/runner/mod.rs`): the holder that set a killswitch. -/
inductive Caller where
  | CtrlC
  | Controller
deriving DecidableEq

/-- `impl From<Caller> for Cause` (`src/runner/mod.rs` lines 29–36); the
`Controller` caller maps to the cause named `Parent` here (see `Cause`). -/
def Caller.toCause : Caller → Cause
  | .CtrlC => .ControlC
  | .Controller => .Parent

/-- `ErrorCause` (`src/result.rs` lines 109–119). -/
inductive ErrorCause (ε : Type) where
  | User (e : ε)
  | MaxIterExceeded
  | ControlC
  | CancellationToken
deriving DecidableEq

/-- The return value of `Runner::run`: `Ok(out)`, or
`Err(TrellisError { cause, result })`; `panicked` stands for the source's
`unreachable!()` branch and for exhaustion of the loop's recursion bound,
both shown impossible for runs started at iteration 0. -/
inductive RunOutcome (ε ο : Type) where
  | ok (out : ο)
  | err (cause : ErrorCause ε) (result : Option ο)
  | panicked
deriving DecidableEq

/-- `Runner` (`src/runner/mod.rs`): the calculation with its threaded
environment, the wrapped state, the user state's trait implementation, and
the killswitch polls.  `killAt k` is the outcome of the loop-head poll at
pass `k`: `some` of the first dead killswitch's caller
(`kill_signal_received` / `kill_cause`), or `none`.  Wall-clock timing is
outside the model, and observers receive the state by shared reference so
they cannot affect it; both are omitted. -/
structure Runner (η σ ε ο : Type) where
  calculation : Calculation η σ ε ο
  user : UserState σ
  env : η
  state : State σ
  killAt : ℕ → Option Caller

/-- `Runner::once` (`src/runner/mod.rs` lines 152–174): run the
calculation's `next`, put its user state back, increment the iteration and
run the wrapper's update.  (The observer dispatch that follows does not
touch the state.) -/
def Runner.once {η σ ε ο : Type} (c : Calculation η σ ε ο) (u : UserState σ)
    (env : η) (s : State σ) : Except ε (η × State σ) :=
  match c.next env s.specific with
  | .error e => .error e
  | .ok (env2, sp) =>
      .ok (env2, State.update u (State.increment_iteration { s with specific := sp }))

/-- Outcome of the runner's main loop.  Each completed `next` call is
recorded in a trace as the pair (entry termination status, entry iteration
count) of the state it was issued from.  `fuelOut` marks exhaustion of the
recursion bound, proved unreachable for the bound `Runner.run` uses. -/
inductive LoopRes (η σ ε : Type) where
  | broke (env : η) (s : State σ) (trace : List (Status × ℕ))
  | failed (e : ε) (trace : List (Status × ℕ))
  | fuelOut (trace : List (Status × ℕ))

/-- The trace component of a loop outcome. -/
def LoopRes.trace {η σ ε : Type} : LoopRes η σ ε → List (Status × ℕ)
  | .broke _ _ tr => tr
  | .failed _ tr => tr
  | .fuelOut tr => tr

/-- The loop of `Runner::run` (`src/runner/mod.rs` lines 201–210): poll the
killswitches and terminate the state if one fired, break if the state is
terminated, otherwise run one iteration.  `k` counts loop passes and f
indexes the polls; the recursion is bounded by explicit fuel. -/
def Runner.loopGo {η σ ε ο : Type} (c : Calculation η σ ε ο) (u : UserState σ)
    (killAt : ℕ → Option Caller) :
    ℕ → ℕ → η → State σ → LoopRes η σ ε
  | 0, _, _, _ => .fuelOut []
  | fuel + 1, k, env, s =>
      let s1 := match killAt k with
        | some caller => s.terminate_due_to caller.toCause
        | none => s
      if s1.is_terminated then .broke env s1 []
      else
        match Runner.once c u env s1 with
        | .error e => .failed e [(s1.termination_status, s1.iter)]
        | .ok (env2, s2) =>
            match Runner.loopGo c u killAt fuel (k + 1) env2 s2 with
            | .broke env3 s3 tr => .broke env3 s3 ((s1.termination_status, s1.iter) :: tr)
            | .failed e tr => .failed e ((s1.termination_status, s1.iter) :: tr)
            | .fuelOut tr => .fuelOut ((s1.termination_status, s1.iter) :: tr)

/-- `Runner::initialise` (`src/runner/mod.rs` lines 139–150): run the
calculation's `initialise` and then the wrapper's update.  (The observer
dispatch that follows does not touch the state.) -/
def Runner.initPhase {η σ ε ο : Type} (r : Runner η σ ε ο) : Except ε (η × State σ) :=
  match r.calculation.initialise r.env r.state.specific with
  | .error e => .error e
  | .ok (env2, sp) => .ok (env2, State.update r.user { r.state with specific := sp })

/-- The initialisation step of `Runner::run` (lines 195–199): `initialise`
runs only when the state does not report initialised. -/
def Runner.initCheck {η σ ε ο : Type} (r : Runner η σ ε ο) : Except ε (η × State σ) :=
  if State.is_initialised r.user r.state then .ok (r.env, r.state)
  else Runner.initPhase r

/-- The recursion bound `Runner.run` hands the loop; `loopGo_no_fuelOut`
shows the loop always breaks or fails within it. -/
def Runner.fuel {η σ ε ο : Type} (r : Runner η σ ε ο) : ℕ := r.state.max_iter + 2

/-- The loop outcome of `Runner::run`, `none` when `initialise` failed
before the loop was reached. -/
def Runner.runLoop {η σ ε ο : Type} (r : Runner η σ ε ο) : Option (LoopRes η σ ε) :=
  match Runner.initCheck r with
  | .error _ => none
  | .ok (env1, s1) =>
      some (Runner.loopGo r.calculation r.user r.killAt (Runner.fuel r) 0 env1 s1)

/-- `Runner::run` (`src/runner/mod.rs` lines 187–231): initialise if
needed, run the loop, translate the final termination cause
(`Converged → none`, `ControlC → ControlC`, `Parent → CancellationToken`,
`ExceededMaxIterations → MaxIterExceeded`), run `finalise`, and wrap the
output in `Ok` or in the error envelope carrying the partial result.  Any
phase error `e` becomes `Err(User e)` with no result, through
`impl From<E> for TrellisError` (`src/result.rs` lines 100–107). -/
def Runner.run {η σ ε ο : Type} (r : Runner η σ ε ο) : RunOutcome ε ο :=
  match Runner.initCheck r with
  | .error e => .err (.User e) none
  | .ok (env1, s1) =>
      match Runner.loopGo r.calculation r.user r.killAt (Runner.fuel r) 0 env1 s1 with
      | .fuelOut _ => .panicked
      | .failed e _ => .err (.User e) none
      | .broke env2 s2 _ =>
          match State.termination_cause s2 with
          | none => .panicked
          | some tc =>
              let cause : Option (ErrorCause ε) :=
                match tc with
                | .ControlC => some .ControlC
                | .Parent => some .CancellationToken
                | .Converged => none
                | .ExceededMaxIterations => some .MaxIterExceeded
              match r.calculation.finalise env2 s2.specific with
              | .error e => .err (.User e) none
              | .ok (_, out) =>
                  match cause with
                  | some c => .err c (some out)
                  | none => .ok out

/-- The trace of completed `next` calls of a full `Runner::run`. -/
def Runner.runTrace {η σ ε ο : Type} (r : Runner η σ ε ο) : List (Status × ℕ) :=
  match Runner.runLoop r with
  | none => []
  | some res => res.trace

end Trellis

namespace Trellis

variable {η σ ε ο : Type}

theorem update_notTerminated_invariant (u : UserState σ) (s : State σ)
    (h : (State.update u s).termination_status = Status.NotTerminated) :
    s.iter ≤ s.max_iter := by
  rw [update_status] at h
  by_cases h1 : ((u.update s.specific).2.lt s.relative_tolerance : Bool) = true
  · rw [if_pos h1] at h
    exact absurd h (by simp)
  · rw [if_neg h1] at h
    by_cases h2 : s.iter > s.max_iter
    · rw [if_pos h2] at h
      exact absurd h (by simp)
    · omega

theorem terminate_due_to_terminated (s : State σ) (c : Cause) :
    (s.terminate_due_to c).is_terminated = true := by
  simp [State.is_terminated, State.terminate_due_to]

theorem not_terminated_status (s : State σ) (h : ¬ s.is_terminated = true) :
    s.termination_status = Status.NotTerminated := by
  unfold State.is_terminated at h
  simpa using h

theorem once_ok (c : Calculation η σ ε ο) (u : UserState σ) (env : η) (s : State σ)
    (env2 : η) (s2 : State σ) (h : Runner.once c u env s = .ok (env2, s2)) :
    s2.iter = s.iter + 1 ∧ s2.max_iter = s.max_iter ∧
      (s2.termination_status = Status.NotTerminated → s2.iter ≤ s2.max_iter) := by
  unfold Runner.once at h
  rcases hn : c.next env s.specific with e | ⟨env3, sp⟩ <;> rw [hn] at h
  · exact absurd h (by simp)
  · simp only [Except.ok.injEq, Prod.mk.injEq] at h
    obtain ⟨-, rfl⟩ := h
    refine ⟨?_, ?_, ?_⟩
    · rw [update_iter]
      rfl
    · rw [update_max_iter]
      rfl
    · intro hnt
      rw [update_iter, update_max_iter]
      exact update_notTerminated_invariant u _ hnt

theorem loopGo_broke_terminated (c : Calculation η σ ε ο) (u : UserState σ)
    (killAt : ℕ → Option Caller) (fuel : ℕ) :
    ∀ (k : ℕ) (env : η) (s : State σ) (env2 : η) (s2 : State σ)
      (tr : List (Status × ℕ)),
      Runner.loopGo c u killAt fuel k env s = .broke env2 s2 tr →
      s2.is_terminated = true := by
  induction fuel with
  | zero =>
    intro k env s env2 s2 tr h
    simp [Runner.loopGo] at h
  | succ fuel ih =>
    intro k env s env2 s2 tr h
    rcases hk : killAt k with _ | caller <;> simp only [Runner.loopGo, hk] at h
    · by_cases ht : s.is_terminated = true
      · rw [if_pos ht] at h
        injection h with h1 h2 h3
        subst h2
        exact ht
      · rw [if_neg ht] at h
        rcases ho : Runner.once c u env s with e | ⟨env3, s3⟩ <;> rw [ho] at h
        · simp at h
        · simp only [] at h
          rcases hl : Runner.loopGo c u killAt fuel (k + 1) env3 s3 with
            ⟨env4, s4, tr4⟩ | ⟨e4, tr4⟩ | tr4 <;> rw [hl] at h
          · injection h with h1 h2 h3
            subst h1
            subst h2
            exact ih (k + 1) env3 s3 env4 s4 tr4 hl
          · simp at h
          · simp at h
    · rw [if_pos (terminate_due_to_terminated s caller.toCause)] at h
      injection h with h1 h2 h3
      subst h2
      exact terminate_due_to_terminated s caller.toCause

theorem loopGo_no_fuelOut (c : Calculation η σ ε ο) (u : UserState σ)
    (killAt : ℕ → Option Caller) (fuel : ℕ) :
    ∀ (k : ℕ) (env : η) (s : State σ),
      (s.termination_status = Status.NotTerminated → s.iter ≤ s.max_iter) →
      s.max_iter + 2 ≤ s.iter + fuel → 1 ≤ fuel →
      ∀ tr : List (Status × ℕ),
        Runner.loopGo c u killAt fuel k env s ≠ .fuelOut tr := by
  induction fuel with
  | zero =>
    intro k env s hinv hfuel hpos
    omega
  | succ fuel ih =>
    intro k env s hinv hfuel hpos tr
    rcases hk : killAt k with _ | caller <;> simp only [Runner.loopGo, hk]
    · by_cases ht : s.is_terminated = true
      · rw [if_pos ht]
        simp
      · rw [if_neg ht]
        have hle : s.iter ≤ s.max_iter := hinv (not_terminated_status s ht)
        rcases ho : Runner.once c u env s with e | ⟨env3, s3⟩
        · simp
        · obtain ⟨hi3, hm3, hinv3⟩ := once_ok c u env s env3 s3 ho
          simp only []
          rcases hl : Runner.loopGo c u killAt fuel (k + 1) env3 s3 with
            ⟨env4, s4, tr4⟩ | ⟨e4, tr4⟩ | tr4
          · simp
          · simp
          · exact absurd hl (ih (k + 1) env3 s3 hinv3 (by omega) (by omega) tr4)
    · rw [if_pos (terminate_due_to_terminated s caller.toCause)]
      simp

end Trellis

namespace Trellis

variable {η σ ε ο : Type}

theorem loopGo_trace_length (c : Calculation η σ ε ο) (u : UserState σ)
    (killAt : ℕ → Option Caller) (fuel : ℕ) :
    ∀ (k : ℕ) (env : η) (s : State σ),
      (s.termination_status = Status.NotTerminated → s.iter ≤ s.max_iter) →
      (Runner.loopGo c u killAt fuel k env s).trace.length ≤ s.max_iter + 1 - s.iter := by
  induction fuel with
  | zero =>
    intro k env s hinv
    simp [Runner.loopGo, LoopRes.trace]
  | succ fuel ih =>
    intro k env s hinv
    rcases hk : killAt k with _ | caller <;> simp only [Runner.loopGo, hk]
    · by_cases ht : s.is_terminated = true
      · rw [if_pos ht]
        simp [LoopRes.trace]
      · rw [if_neg ht]
        have hle : s.iter ≤ s.max_iter := hinv (not_terminated_status s ht)
        rcases ho : Runner.once c u env s with e | ⟨env3, s3⟩
        · simp only [LoopRes.trace]
          simp
          omega
        · obtain ⟨hi3, hm3, hinv3⟩ := once_ok c u env s env3 s3 ho
          have hrec := ih (k + 1) env3 s3 hinv3
          simp only []
          rcases hl : Runner.loopGo c u killAt fuel (k + 1) env3 s3 with
            ⟨env4, s4, tr4⟩ | ⟨e4, tr4⟩ | tr4 <;> rw [hl] at hrec <;>
            simp only [LoopRes.trace, List.length_cons] at hrec ⊢ <;> omega
    · rw [if_pos (terminate_due_to_terminated s caller.toCause)]
      simp [LoopRes.trace]

theorem loopGo_trace_not_terminated (c : Calculation η σ ε ο) (u : UserState σ)
    (killAt : ℕ → Option Caller) (fuel : ℕ) :
    ∀ (k : ℕ) (env : η) (s : State σ) (p : Status × ℕ),
      p ∈ (Runner.loopGo c u killAt fuel k env s).trace → p.1 = Status.NotTerminated := by
  induction fuel with
  | zero =>
    intro k env s p hp
    simp [Runner.loopGo, LoopRes.trace] at hp
  | succ fuel ih =>
    intro k env s p hp
    rcases hk : killAt k with _ | caller <;> simp only [Runner.loopGo, hk] at hp
    · by_cases ht : s.is_terminated = true
      · rw [if_pos ht] at hp
        simp [LoopRes.trace] at hp
      · rw [if_neg ht] at hp
        have hnt : s.termination_status = Status.NotTerminated := not_terminated_status s ht
        rcases ho : Runner.once c u env s with e | ⟨env3, s3⟩ <;> rw [ho] at hp
        · simp only [LoopRes.trace, List.mem_singleton] at hp
          rw [hp, hnt]
        · simp only [] at hp
          have hrec := ih (k + 1) env3 s3 p
          rcases hl : Runner.loopGo c u killAt fuel (k + 1) env3 s3 with
            ⟨env4, s4, tr4⟩ | ⟨e4, tr4⟩ | tr4 <;> rw [hl] at hp hrec <;>
            simp only [LoopRes.trace, List.mem_cons] at hp <;>
            rcases hp with hp | hp <;>
            first
            | rw [hp, hnt]
            | exact hrec (by simpa [LoopRes.trace] using hp)
    · rw [if_pos (terminate_due_to_terminated s caller.toCause)] at hp
      simp [LoopRes.trace] at hp

theorem initCheck_fields (r : Runner η σ ε ο) (env1 : η) (s1 : State σ)
    (h : Runner.initCheck r = .ok (env1, s1)) :
    s1.iter = r.state.iter ∧ s1.max_iter = r.state.max_iter ∧
      (r.state.iter ≤ r.state.max_iter →
        s1.termination_status = Status.NotTerminated → s1.iter ≤ s1.max_iter) := by
  unfold Runner.initCheck at h
  by_cases hini : State.is_initialised r.user r.state = true
  · rw [if_pos hini] at h
    simp only [Except.ok.injEq, Prod.mk.injEq] at h
    obtain ⟨-, rfl⟩ := h
    exact ⟨rfl, rfl, fun hle _ => hle⟩
  · rw [if_neg hini] at h
    unfold Runner.initPhase at h
    rcases hc : r.calculation.initialise r.env r.state.specific with e | ⟨env2, sp⟩ <;>
      rw [hc] at h
    · exact absurd h (by simp)
    · simp only [Except.ok.injEq, Prod.mk.injEq] at h
      obtain ⟨-, rfl⟩ := h
      refine ⟨by rw [update_iter], by rw [update_max_iter], fun hle hnt => ?_⟩
      rw [update_iter, update_max_iter]
      exact update_notTerminated_invariant r.user _ hnt

theorem is_terminated_cause (s : State σ) (h : s.is_terminated = true) :
    ∃ c, s.termination_status = Status.Terminated c ∧
      State.termination_cause s = some c := by
  unfold State.is_terminated at h
  rcases hs : s.termination_status with _ | c
  · rw [hs] at h
    simp at h
  · exact ⟨c, rfl, by unfold State.termination_cause; rw [hs]⟩

end Trellis

namespace Trellis

variable {η σ ε ο : Type}

/-- C3: `Runner::run` translates the final termination cause to its return
value — `Converged` yields `Ok` of `finalise`'s output; `ControlC`,
`Parent` and `ExceededMaxIterations` yield `Err` with causes `ControlC`,
`CancellationToken` and `MaxIterExceeded` respectively, each carrying the
`finalise` output as the partial result; any phase error `e` (initialise,
next or finalise) yields `Err` with cause `User e` and no partial output.
The final conjunct shows the `unreachable!()`/fuel branches are never
taken for runs started at iteration 0. -/
theorem run_cause_translation (r : Runner η σ ε ο) :
    (∀ e, Runner.initCheck r = .error e → Runner.run r = .err (.User e) none)
  ∧ (∀ env1 s1 e tr, Runner.initCheck r = .ok (env1, s1) →
      Runner.loopGo r.calculation r.user r.killAt (Runner.fuel r) 0 env1 s1
        = .failed e tr →
      Runner.run r = .err (.User e) none)
  ∧ (∀ env1 s1 env2 s2 tr, Runner.initCheck r = .ok (env1, s1) →
      Runner.loopGo r.calculation r.user r.killAt (Runner.fuel r) 0 env1 s1
        = .broke env2 s2 tr →
        (∀ e, r.calculation.finalise env2 s2.specific = .error e →
          Runner.run r = .err (.User e) none)
      ∧ (∀ env3 out, r.calculation.finalise env2 s2.specific = .ok (env3, out) →
          (s2.termination_status = Status.Terminated Cause.Converged →
            Runner.run r = .ok out)
        ∧ (s2.termination_status = Status.Terminated Cause.ControlC →
            Runner.run r = .err .ControlC (some out))
        ∧ (s2.termination_status = Status.Terminated Cause.Parent →
            Runner.run r = .err .CancellationToken (some out))
        ∧ (s2.termination_status = Status.Terminated Cause.ExceededMaxIterations →
            Runner.run r = .err .MaxIterExceeded (some out))))
  ∧ (r.state.iter = 0 → Runner.run r ≠ .panicked) := by
  refine ⟨?_, ?_, ?_, ?_⟩
  · intro e h
    unfold Runner.run
    rw [h]
  · intro env1 s1 e tr hi hl
    unfold Runner.run
    rw [hi]
    simp only []
    rw [hl]
  · intro env1 s1 env2 s2 tr hi hl
    have hterm := loopGo_broke_terminated r.calculation r.user r.killAt
      (Runner.fuel r) 0 env1 s1 env2 s2 tr hl
    constructor
    · intro e hf
      unfold Runner.run
      rw [hi]
      simp only []
      rw [hl]
      simp only []
      obtain ⟨c, hst, hcause⟩ := is_terminated_cause s2 hterm
      rw [hcause]
      simp only []
      rw [hf]
    · intro env3 out hf
      refine ⟨?_, ?_, ?_, ?_⟩ <;> intro hst <;>
        · unfold Runner.run
          rw [hi]
          simp only []
          rw [hl]
          simp only []
          rw [show State.termination_cause s2 = some _ from by
            unfold State.termination_cause
            rw [hst]]
          simp only []
          rw [hf]
  · intro h0
    unfold Runner.run
    rcases hi : Runner.initCheck r with e | ⟨env1, s1⟩
    · simp
    · obtain ⟨hiter, hmax, hinvf⟩ := initCheck_fields r env1 s1 hi
      have hinv : s1.termination_status = Status.NotTerminated → s1.iter ≤ s1.max_iter :=
        hinvf (by omega)
      simp only []
      rcases hl : Runner.loopGo r.calculation r.user r.killAt (Runner.fuel r) 0 env1 s1 with
        ⟨env2, s2, tr⟩ | ⟨e, tr⟩ | tr
      · have hterm := loopGo_broke_terminated r.calculation r.user r.killAt
          (Runner.fuel r) 0 env1 s1 env2 s2 tr hl
        obtain ⟨c, hst, hcause⟩ := is_terminated_cause s2 hterm
        simp only []
        rw [hcause]
        simp only []
        rcases hf : r.calculation.finalise env2 s2.specific with e | ⟨env3, out⟩
        · simp
        · cases c <;> simp
      · simp
      · exact absurd hl (loopGo_no_fuelOut r.calculation r.user r.killAt
          (Runner.fuel r) 0 env1 s1 hinv
          (by unfold Runner.fuel; omega) (by unfold Runner.fuel; omega) tr)

/-- C7: with `max_iter = N`, a run completes at most `N + 1` calls to the
calculation's `next` (the iteration counter is incremented before the
update that can trigger `ExceededMaxIterations`). -/
theorem next_calls_bounded (r : Runner η σ ε ο) (h0 : r.state.iter = 0) :
    (Runner.runTrace r).length ≤ r.state.max_iter + 1 := by
  unfold Runner.runTrace Runner.runLoop
  rcases hi : Runner.initCheck r with e | ⟨env1, s1⟩
  · simp
  · simp only []
    obtain ⟨hiter, hmax, hinvf⟩ := initCheck_fields r env1 s1 hi
    have hinv : s1.termination_status = Status.NotTerminated → s1.iter ≤ s1.max_iter :=
      hinvf (by omega)
    have := loopGo_trace_length r.calculation r.user r.killAt (Runner.fuel r) 0 env1 s1 hinv
    omega

end Trellis

namespace Trellis

variable {η σ ε ο : Type}

/-- C8 as amended: every `next` call is issued from a state whose
termination status is `NotTerminated`; and the only further mutation of an
already-terminated state outside wrap-up is the loop-head kill-signal
check, which can overwrite the termination cause — when no kill signal is
pending the loop returns a terminated state unchanged, and when one is
pending the state is returned with only its termination cause rewritten. -/
theorem next_only_from_unterminated (r : Runner η σ ε ο) :
    (∀ p ∈ Runner.runTrace r, p.1 = Status.NotTerminated)
  ∧ (∀ (fuel k : ℕ) (env : η) (s : State σ), s.is_terminated = true →
      r.killAt k = none →
      Runner.loopGo r.calculation r.user r.killAt (fuel + 1) k env s = .broke env s [])
  ∧ (∀ (fuel k : ℕ) (env : η) (s : State σ) (caller : Caller),
      s.is_terminated = true → r.killAt k = some caller →
      Runner.loopGo r.calculation r.user r.killAt (fuel + 1) k env s
        = .broke env (s.terminate_due_to caller.toCause) []) := by
  refine ⟨?_, ?_, ?_⟩
  · intro p hp
    unfold Runner.runTrace Runner.runLoop at hp
    rcases hi : Runner.initCheck r with e | ⟨env1, s1⟩ <;> rw [hi] at hp
    · simp at hp
    · exact loopGo_trace_not_terminated r.calculation r.user r.killAt
        (Runner.fuel r) 0 env1 s1 p (by simpa using hp)
  · intro fuel k env s hterm hkill
    simp only [Runner.loopGo, hkill]
    rw [if_pos hterm]
  · intro fuel k env s caller hterm hkill
    simp only [Runner.loopGo, hkill]
    rw [if_pos (terminate_due_to_terminated s caller.toCause)]

/-- Identity calculation over unit problem, state and output: every phase
succeeds and leaves its argument unchanged. -/
def idCalc : Calculation Unit Unit Unit Unit where
  initialise := fun env s => .ok (env, s)
  next := fun env s => .ok (env, s)
  finalise := fun env _ => .ok (env, ())

/-- User state reporting not-initialised, whose estimate 0 converges
immediately against tolerance 1. -/
def c8User : UserState Unit where
  is_initialised := fun _ => false
  update := fun _ => ((), TFloat.finite 0)
  last_was_best := fun x => x

/-- Runner whose initialisation converges and whose Ctrl-C killswitch is
already dead at the first loop-head poll. -/
def c8Runner : Runner Unit Unit Unit Unit where
  calculation := idCalc
  user := c8User
  env := ()
  state := { State.new () (TFloat.finite 1) with max_iter := 5 }
  killAt := fun _ => some Caller.CtrlC

/-- The state `c8Runner`'s initialisation produces: converged at iteration
0 with error 0. -/
def c8InitState : State Unit where
  specific := ()
  iter := 0
  last_best_iter := 0
  max_iter := 5
  termination_status := Status.Terminated Cause.Converged
  error := TFloat.finite 0
  prev_error := TFloat.posInf
  best_error := TFloat.finite 0
  prev_best_error := TFloat.posInf
  relative_tolerance := TFloat.finite 1

/-- C8 counterexample: the state reaching the loop head is already
terminated (`Converged`), yet the kill-signal check mutates it, rewriting
its cause to `ControlC`; the run reports `Err(ControlC)` in place of the
recorded convergence. -/
theorem runner_mutates_terminated_state :
    Runner.initCheck c8Runner = .ok ((), c8InitState)
  ∧ c8InitState.termination_status = Status.Terminated Cause.Converged
  ∧ Runner.loopGo c8Runner.calculation c8Runner.user c8Runner.killAt
      (Runner.fuel c8Runner) 0 () c8InitState
      = .broke () (c8InitState.terminate_due_to Cause.ControlC) []
  ∧ (c8InitState.terminate_due_to Cause.ControlC).termination_status
      ≠ c8InitState.termination_status
  ∧ Runner.run c8Runner = .err ErrorCause.ControlC (some ()) := by
  refine ⟨rfl, rfl, rfl, by decide, rfl⟩

/-- User state reporting initialised, with estimate 0 (converges against
tolerance 1 on the first iteration). -/
def c7User : UserState Unit where
  is_initialised := fun _ => true
  update := fun _ => ((), TFloat.finite 0)
  last_was_best := fun x => x

/-- A converging runner with `max_iter = 5` and no kill signals. -/
def c7Runner : Runner Unit Unit Unit Unit where
  calculation := idCalc
  user := c7User
  env := ()
  state := { State.new () (TFloat.finite 1) with max_iter := 5 }
  killAt := fun _ => none

/-- Witness for C7: the converging runner starts at iteration 0 and
completes at most `max_iter + 1` next calls. -/
theorem next_calls_bounded_witness :
    c7Runner.state.iter = 0 ∧
      (Runner.runTrace c7Runner).length ≤ c7Runner.state.max_iter + 1 :=
  ⟨rfl, next_calls_bounded c7Runner rfl⟩

end Trellis
